import Mathlib

/-!
Verification of the data-acquisition layer of the Stock-Market-Dashboard
repository (`stock_dashboard.ipynb`, function `fetch_stock_data` together
with the `stock_data` SQLite table it reads and writes).

The embedding models:
* calendar dates as `Nat` day indices; a stored `date` TEXT value is a
  `DateKey`: its day index plus a flag recording whether the value carries
  the `' 00:00:00'` time-of-day suffix. The program's requests use bare
  `strftime('%Y-%m-%d')` strings, while its write path hands
  `datetime.datetime` objects to `cursor.executemany`, which sqlite3's
  default adapter stores as `'YYYY-MM-DD HH:MM:SS'` — so the two formats
  coexist in one TEXT column and `DateKey` keeps them apart. The `'%Y-%m-%d'`
  rendering is fixed-width and order-isomorphic to the day index under
  memcmp, and appending `' 00:00:00'` yields a proper extension, which
  memcmp orders strictly after the bare date and unequal to it;
* the SQLite `stock_data` table as a list of rows in rowid (insertion)
  order, with `INSERT OR REPLACE` deleting the conflicting row and
  inserting the new row with a fresh maximal rowid, i.e. at the end;
  the source's one `SELECT` (`WHERE symbol = ? AND date BETWEEN ? AND ?`)
  is answered through the `(symbol, date)` primary-key autoindex, so its
  result set comes back ordered by the stored date text ascending,
  modelled as a sort of the matching rows;
* the decoded JSON body of one HTTP response as a `Payload` record holding
  the optional `Note` and `Error Message` entries plus the remaining
  top-level entries in dict order;
* numeric coercion (`pd.to_numeric` on string-encoded numbers) as a decimal
  parser into `Rat`;
* the network as an oracle mapping the attempt index to the payload that
  attempt receives;
* each failure path that the source handles with `handle_error` + `continue`
  (or catches in the per-symbol `except` block) as an explicit
  `Except.error` outcome recorded for that symbol, so that the orchestrator,
  which catches every per-symbol exception, is a total function.
-/

namespace StockDash

/-- Model of matching a pattern at the head of a character list:
`leadsWith needle hay` is true when `needle` is an initial segment of `hay`. -/
def leadsWith : List Char → List Char → Bool
  | [], _ => true
  | _ :: _, [] => false
  | a :: as, b :: bs => a == b && leadsWith as bs

/-- `occursIn needle hay`: `needle` occurs as a contiguous run inside `hay`
(model of Python's `needle in hay` substring test). -/
def occursIn (needle : List Char) : List Char → Bool
  | [] => leadsWith needle []
  | b :: bs => leadsWith needle (b :: bs) || occursIn needle bs

/-- Substring test on strings, `strHas hay needle` (Python `needle in hay`). -/
def strHas (hay needle : String) : Bool := occursIn needle.data hay.data

/-- Fuel-indexed worker for `replaceAll`: scans the list left to right and
replaces every non-overlapping occurrence of `pat` by `repl`, exactly as
Python's `str.replace`. The fuel is the length of the scanned list, which
bounds the recursion depth, keeping the definition structural (and hence
kernel-evaluable). -/
def replaceGo (pat repl : List Char) : Nat → List Char → List Char
  | 0, l => l
  | _ + 1, [] => []
  | fuel + 1, c :: rest =>
    if pat ≠ [] && leadsWith pat (c :: rest) then
      repl ++ replaceGo pat repl fuel (List.drop (pat.length - 1) rest)
    else
      c :: replaceGo pat repl fuel rest

/-- Model of Python's `s.replace(pat, repl)`: replace every non-overlapping
occurrence, scanning left to right. -/
def replaceAll (s pat repl : String) : String :=
  ⟨replaceGo pat.data repl.data s.data.length s.data⟩

/-- Decoded JSON body of one Alpha Vantage response as inspected by
`fetch_stock_data`: `note` is the value of the `"Note"` key when present,
`errorMessage` the value of the `"Error Message"` key when present, and
`series` holds the remaining top-level entries in dict (insertion) order,
each mapping a calendar date to its field-name/string-encoded-value pairs. -/
structure Payload where
  note : Option String
  errorMessage : Option String
  series : List (String × List (Nat × List (String × String)))
deriving DecidableEq

/-- The source's error test `"Note" in data or "Error Message" in data`. -/
def hasErrSignal (p : Payload) : Bool := p.note.isSome || p.errorMessage.isSome

/-- The source's `data.get("Note", data.get("Error Message", "Unknown API issue."))`. -/
def errMsg (p : Payload) : String :=
  p.note.getD (p.errorMessage.getD "Unknown API issue.")

/-- Characterwise model of Python's `str.lower` (the messages inspected are
ASCII, where the two coincide). -/
def lowerStr (s : String) : String := ⟨s.data.map Char.toLower⟩

/-- The source's `"premium" in msg.lower()`. -/
def premiumIn (msg : String) : Bool := strHas (lowerStr msg) "premium"

/-- The payload carries a rate-limit `"Note"` whose text mentions "premium";
shorthand for the hypotheses of the retry-bound statements. -/
def premiumNoteSignal (p : Payload) : Bool :=
  match p.note with
  | some m => premiumIn m
  | none => false

/-- Observable outcome of the `for attempt in range(3)` retry loop of
`fetch_stock_data`: the value bound to `data` when the loop exits, the
number of HTTP attempts (`requests.get` calls) performed, and the number of
`time.sleep(60)` calls executed. -/
structure FetchOutcome where
  data : Payload
  attempts : Nat
  sleeps : Nat
deriving DecidableEq

/-- One-to-one translation of the source's retry loop body, recursing on the
remaining iteration count (`fuel`); `i` is the index of the next attempt,
`a` and `sl` the attempts and sleeps performed so far, and `last` the value
currently bound to `data`. Each iteration performs `requests.get` (consuming
`resp i`); on an error signal whose message mentions "premium" it sleeps 60
seconds and continues, on any other error signal it breaks, and on a clean
payload it breaks. -/
def retryGo (resp : Nat → Payload) : Nat → Nat → Nat → Nat → Payload → FetchOutcome
  | 0, _, a, sl, last => ⟨last, a, sl⟩
  | fuel + 1, i, a, sl, _ =>
    if hasErrSignal (resp i) then
      if premiumIn (errMsg (resp i)) then
        retryGo resp fuel (i + 1) (a + 1) (sl + 1) (resp i)
      else
        ⟨resp i, a + 1, sl⟩
    else
      ⟨resp i, a + 1, sl⟩

/-- The source's `for attempt in range(3)` retry loop: at most 3 attempts,
starting with attempt 0 and no sleeps performed. -/
def runRetry (resp : Nat → Payload) : FetchOutcome :=
  retryGo resp 3 0 0 0 (resp 0)

/-- The query parameters of the GET request built by `fetch_stock_data`:
`function`, the `symbol` parameter actually sent, and the optional `market`
and `outputsize` parameters (absent means the URL does not carry them). -/
structure ApiRequest where
  func : String
  symbol : String
  market : Option String
  outputsize : Option String
deriving DecidableEq

/-- The symbol classification and URL construction of `fetch_stock_data`:
if `'USD' in symbol or 'EUR' in symbol`, the function is
`DIGITAL_CURRENCY_DAILY` when `'USD' in symbol` and `FX_DAILY` otherwise,
and the URL carries `symbol.replace("-USD","")` and `market=USD`; all other
symbols use `TIME_SERIES_DAILY_ADJUSTED` with the symbol unchanged and
`outputsize=full`. -/
def classify (s : String) : ApiRequest :=
  if strHas s "USD" || strHas s "EUR" then
    { func := if strHas s "USD" then "DIGITAL_CURRENCY_DAILY" else "FX_DAILY"
      symbol := replaceAll s "-USD" ""
      market := some "USD"
      outputsize := none }
  else
    { func := "TIME_SERIES_DAILY_ADJUSTED"
      symbol := s
      market := none
      outputsize := some "full" }

/-- A decimal number `mant / 10 ^ scale`, the result of coercing one
string-encoded payload cell; kept unnormalized so that every operation is
kernel-evaluable (no claim computes with the numeric value itself). -/
structure DecNum where
  mant : Int
  scale : Nat
deriving DecidableEq

/-- The TEXT stored in the `date` column, abstracted order-faithfully:
`day` is the calendar day index of the leading `'YYYY-MM-DD'` part and
`hasTime` records whether the `' 00:00:00'` suffix follows it. The
program's completeness/read queries use bare day strings, while rows
written through `df.to_sql` carry the sqlite3 datetime-adapter suffix. -/
structure DateKey where
  day : Nat
  hasTime : Bool
deriving DecidableEq

/-- Text comparison `stored >= 'START'` under memcmp: the bare start bound
is a prefix of any same-day stored value, so a same-day stored value (with
or without suffix) compares greater-or-equal; otherwise the fixed-width day
part decides. -/
def geStart (k : DateKey) (s : Nat) : Bool := decide (s ≤ k.day)

/-- Text comparison `stored <= 'END'` under memcmp: a same-day stored value
equals the bare end bound only when it carries no suffix — with the
`' 00:00:00'` suffix it is a proper extension and compares strictly
greater; otherwise the fixed-width day part decides. -/
def leEnd (k : DateKey) (e : Nat) : Bool :=
  decide (k.day < e) || (decide (k.day = e) && !k.hasTime)

/-- Text equality of a stored value with a bare `strftime('%Y-%m-%d')`
string: same day and no suffix. -/
def matchesPlain (k : DateKey) (d : Nat) : Bool := decide (k.day = d) && !k.hasTime

/-- Memcmp order of two stored date texts: the fixed-width day part decides
first; on the same day the bare value (a proper prefix) precedes the
suffixed one. -/
def dkLe (a b : DateKey) : Bool :=
  decide (a.day < b.day) || (decide (a.day = b.day) && (!a.hasTime || b.hasTime))

/-- One row of the `stock_data` SQLite table. Numeric cells are modelled as
decimal numbers (`REAL`/`INTEGER` affinity is irrelevant to the claims);
a field is `none` when the corresponding column was not produced by the
normalizer for this asset class (stored as SQL `NULL`). -/
structure Row where
  symbol : String
  date : DateKey
  openPrice : Option DecNum
  highPrice : Option DecNum
  lowPrice : Option DecNum
  closePrice : Option DecNum
  volume : Option DecNum
  adjustedClose : Option DecNum
deriving DecidableEq

/-- The `stock_data` table in rowid (insertion) order. -/
abbrev Cache := List Row

/-- The table's primary key `(symbol, date)`. -/
def rkey (r : Row) : String × DateKey := (r.symbol, r.date)

/-- Two rows conflict on the primary key. -/
def sameKey (a b : Row) : Bool := decide (rkey a = rkey b)

/-- `INSERT OR REPLACE` of a single row: the row sharing the primary key (if
any) is deleted and the new row is inserted with a fresh maximal rowid,
i.e. appended at the end of the scan order. -/
def upsertRow (c : Cache) (r : Row) : Cache :=
  c.filter (fun x => ! sameKey x r) ++ [r]

/-- The batch upsert performed by `df.to_sql(..., method=INSERT OR REPLACE)`:
one `INSERT OR REPLACE` per row, in row order. -/
def upsert (c : Cache) (rows : List Row) : Cache := rows.foldl upsertRow c

/-- The cache read
`SELECT * FROM stock_data WHERE symbol = ? AND date BETWEEN ? AND ?`:
SQLite answers it through the `(symbol, date)` primary-key autoindex, so
the matching rows come back ordered by the stored date text ascending
(the `BETWEEN` bounds are the bare `'%Y-%m-%d'` strings, compared to the
stored TEXT by memcmp). -/
def readRange (c : Cache) (sym : String) (s e : Nat) : List Row :=
  List.insertionSort (fun a b : Row => dkLe a.date b.date = true)
    (c.filter (fun r => decide (r.symbol = sym) && (geStart r.date s && leEnd r.date e)))

/-- `pd.date_range(start, end)`: every calendar date from `s` to `e`
inclusive (empty when `s > e`). -/
def dateRange (s e : Nat) : List Nat := (List.range (e + 1 - s)).map (fun k => k + s)

/-- The completeness test
`all(d.strftime('%Y-%m-%d') in cached_df.index for d in date_range)`:
every calendar date of the requested range occurs, as a bare
`'%Y-%m-%d'` string, among the date texts of the rows the range query
returned (a stored value carrying the `' 00:00:00'` suffix is a different
string and does not match). -/
def hasCompleteRange (c : Cache) (sym : String) (s e : Nat) : Bool :=
  (dateRange s e).all (fun d => (readRange c sym s e).any (fun r => matchesPlain r.date d))

/-- The fixed column-rename table passed to `df.rename` (unlisted names are
kept unchanged, as pandas does). -/
def renameCol (k : String) : String :=
  if k = "1. open" then "open"
  else if k = "2. high" then "high"
  else if k = "3. low" then "low"
  else if k = "4. close" then "close"
  else if k = "5. volume" then "volume"
  else if k = "1a. open (USD)" then "open"
  else if k = "2a. high (USD)" then "high"
  else if k = "3a. low (USD)" then "low"
  else if k = "4a. close (USD)" then "close"
  else if k = "5. adjusted close" then "adjusted_close"
  else if k = "6. volume" then "volume"
  else k

/-- Digit-list accumulator for the decimal parser. -/
def digitsVal : List Char → Nat → Option Nat
  | [], acc => some acc
  | c :: t, acc =>
    if c.isDigit then digitsVal t (acc * 10 + (c.toNat - 48)) else none

/-- A non-empty all-digit character list, as a natural number. -/
def natDigits (cs : List Char) : Option Nat :=
  if cs.isEmpty then none else digitsVal cs 0

/-- Unsigned decimal literal `digits[.digits]` as a decimal number. -/
def absNumeric (cs : List Char) : Option DecNum :=
  let ip := cs.takeWhile (fun c => c ≠ '.')
  match cs.dropWhile (fun c => c ≠ '.') with
  | [] => (natDigits ip).map (fun n => ⟨(n : Int), 0⟩)
  | _ :: fp =>
    if fp.any (fun c => c = '.') then none
    else
      match natDigits ip, natDigits fp with
      | some n, some f => some ⟨(n * 10 ^ fp.length + f : Nat), fp.length⟩
      | _, _ => none

/-- Numeric coercion of one string-encoded cell (the per-cell behaviour of
`df.apply(pd.to_numeric)` on the payload's decimal strings): `none` when the
cell is not a decimal numeral, in which case `pd.to_numeric` raises. -/
def toNumeric (s : String) : Option DecNum :=
  match s.data with
  | '-' :: rest => (absNumeric rest).map (fun q => ⟨-q.mant, q.scale⟩)
  | cs => absNumeric cs

/-- Rename and coerce every field of one payload row; `none` as soon as one
cell fails numeric coercion. -/
def coerceRow (fs : List (String × String)) : Option (List (String × DecNum)) :=
  fs.mapM (fun kv => (toNumeric kv.2).map (fun q => (renameCol kv.1, q)))

/-- Assemble a `stock_data` row from the renamed, coerced fields of one
payload row, adding the `symbol` column (`df['symbol'] = symbol`). The date
is written with the time-of-day suffix: `pd.to_datetime` turns the index
into `datetime` values, and `df.to_sql`'s `executemany` hands them to
sqlite3's default adapter, which stores `'YYYY-MM-DD HH:MM:SS'` TEXT. -/
def buildRow (sym : String) (d : Nat) (fs : List (String × DecNum)) : Row :=
  { symbol := sym
    date := ⟨d, true⟩
    openPrice := fs.lookup "open"
    highPrice := fs.lookup "high"
    lowPrice := fs.lookup "low"
    closePrice := fs.lookup "close"
    volume := fs.lookup "volume"
    adjustedClose := fs.lookup "adjusted_close" }

/-- The normalization block of `fetch_stock_data` applied to the chosen
time-series entry: build one row per date, failing (as `pd.to_numeric`
raises) when any cell of any row is not numeric. -/
def normalizeSeries (sym : String) (entries : List (Nat × List (String × String))) :
    Option (List Row) :=
  entries.mapM (fun ent => (coerceRow ent.2).map (buildRow sym ent.1))

/-- The source's
`next(iter(k for k in data if 'Time Series' in k or 'Digital Currency' in k))`:
the first top-level entry whose key contains `"Time Series"` or
`"Digital Currency"`; `none` models the `StopIteration` that the
per-symbol `except` block catches. -/
def pickSeries (p : Payload) :
    Option (String × List (Nat × List (String × String))) :=
  p.series.find? (fun kv => strHas kv.1 "Time Series" || strHas kv.1 "Digital Currency")

/-- Reasons a symbol's cycle records a failure and moves on: the post-loop
`continue` on a surviving API error signal, the `StopIteration` from a
payload with no time-series key, and the `pd.to_numeric` exception. -/
inductive FailReason where
  | apiError (finalPayload : Payload)
  | noSeriesKey
  | badNumeric
deriving DecidableEq

/-- Observable effect of processing one symbol: the cache afterwards, the
number of network calls made for this symbol, and the recorded per-symbol
outcome. -/
structure SymStep where
  cache : Cache
  calls : Nat
  result : Except FailReason (List Row)

/-- The per-symbol body of `fetch_stock_data`'s loop: serve from cache when
the completeness check passes; otherwise run the retry loop, skip the symbol
if an error signal survives it, locate and normalize the time-series entry
(failures are caught and recorded), upsert the normalized rows, and return
the rows filtered to the requested range
(`df[(df.index >= start_str) & (df.index <= end_str)]` — an in-memory
pandas comparison of the datetime index against the parsed bound strings,
which therefore includes both endpoint days). -/
def processSymbol (resp : Nat → Payload) (sym : String) (s e : Nat) (c : Cache) : SymStep :=
  if hasCompleteRange c sym s e then
    ⟨c, 0, .ok (readRange c sym s e)⟩
  else
    let out := runRetry resp
    if hasErrSignal out.data then
      ⟨c, out.attempts, .error (.apiError out.data)⟩
    else
      match pickSeries out.data with
      | none => ⟨c, out.attempts, .error .noSeriesKey⟩
      | some kv =>
        match normalizeSeries sym kv.2 with
        | none => ⟨c, out.attempts, .error .badNumeric⟩
        | some rows =>
          ⟨upsert c rows, out.attempts,
            .ok (rows.filter (fun r => decide (s ≤ r.date.day) && decide (r.date.day ≤ e)))⟩

/-- Observable effect of the whole symbol loop: final cache, total network
calls, and the per-symbol outcomes in processing order (`all_data` holds the
`Except.ok` entries; an `Except.error` entry is a failure path on which the
source calls `handle_error` and `continue`s). -/
structure FetchRun where
  cache : Cache
  netCalls : Nat
  outcomes : List (String × Except FailReason (List Row))

/-- The symbol loop of `fetch_stock_data`, threading the cache through the
symbols in order. The network oracle is indexed by the request built from
the classifier, mirroring `requests.get(url)`. -/
def fetchGo (net : ApiRequest → Nat → Payload) (s e : Nat) :
    List String → Cache → FetchRun
  | [], c => ⟨c, 0, []⟩
  | sym :: rest, c =>
    let st := processSymbol (net (classify sym)) sym s e c
    let tail := fetchGo net s e rest st.cache
    ⟨tail.cache, st.calls + tail.netCalls, (sym, st.result) :: tail.outcomes⟩

/-- The successful entries of the outcome list, in order: the model of the
`all_data` dict from which `final_df` is concatenated. -/
def successesOf (outs : List (String × Except FailReason (List Row))) :
    List (String × List Row) :=
  outs.filterMap (fun p =>
    match p.2 with
    | .ok rows => some (p.1, rows)
    | .error _ => none)

/-- `fetch_stock_data(symbols, start, end)` on a given cache: run the symbol
loop, then `if not all_data: return None` else return the combined
successes. -/
def fetchStockData (net : ApiRequest → Nat → Payload) (symbols : List String)
    (s e : Nat) (c : Cache) : FetchRun × Option (List (String × List Row)) :=
  let r := fetchGo net s e symbols c
  let ad := successesOf r.outcomes
  (r, if ad.isEmpty then none else some ad)

/-! Helper lemmas about the retry loop. -/

theorem retryGo_step (resp : Nat → Payload) (f i a sl : Nat) (last : Payload) :
    retryGo resp (f + 1) i a sl last =
      if hasErrSignal (resp i) then
        if premiumIn (errMsg (resp i)) then
          retryGo resp f (i + 1) (a + 1) (sl + 1) (resp i)
        else ⟨resp i, a + 1, sl⟩
      else ⟨resp i, a + 1, sl⟩ := rfl

theorem retryGo_attempts_le (resp : Nat → Payload) :
    ∀ (f i a sl : Nat) (last : Payload), a ≤ (retryGo resp f i a sl last).attempts := by
  intro f
  induction f with
  | zero => intro i a sl last; simp [retryGo]
  | succ n ih =>
    intro i a sl last
    rw [retryGo_step]
    split
    · split
      · exact le_trans (Nat.le_succ a) (ih (i + 1) (a + 1) (sl + 1) (resp i))
      · exact Nat.le_succ a
    · exact Nat.le_succ a

theorem runRetry_attempts_pos (resp : Nat → Payload) : 1 ≤ (runRetry resp).attempts := by
  show 1 ≤ (retryGo resp (2 + 1) 0 0 0 (resp 0)).attempts
  rw [retryGo_step]
  split
  · split
    · exact retryGo_attempts_le resp 2 1 1 1 (resp 0)
    · exact le_refl 1
  · exact le_refl 1

theorem runRetry_clean (resp : Nat → Payload) (h : hasErrSignal (resp 0) = false) :
    runRetry resp = ⟨resp 0, 1, 0⟩ := by
  show retryGo resp (2 + 1) 0 0 0 (resp 0) = _
  rw [retryGo_step, h]
  simp

theorem runRetry_nonpremium (resp : Nat → Payload)
    (h : hasErrSignal (resp 0) = true) (hp : premiumIn (errMsg (resp 0)) = false) :
    runRetry resp = ⟨resp 0, 1, 0⟩ := by
  show retryGo resp (2 + 1) 0 0 0 (resp 0) = _
  rw [retryGo_step, h, hp]
  simp

theorem runRetry_allPremium (resp : Nat → Payload)
    (h0 : hasErrSignal (resp 0) = true) (p0 : premiumIn (errMsg (resp 0)) = true)
    (h1 : hasErrSignal (resp 1) = true) (p1 : premiumIn (errMsg (resp 1)) = true)
    (h2 : hasErrSignal (resp 2) = true) (p2 : premiumIn (errMsg (resp 2)) = true) :
    runRetry resp = ⟨resp 2, 3, 3⟩ := by
  show retryGo resp (2 + 1) 0 0 0 (resp 0) = _
  rw [retryGo_step, h0, p0]
  simp only [if_true]
  show retryGo resp (1 + 1) 1 1 1 (resp 0) = _
  rw [retryGo_step, h1, p1]
  simp only [if_true]
  show retryGo resp (0 + 1) 2 2 2 (resp 1) = _
  rw [retryGo_step, h2, p2]
  simp only [if_true]
  rfl

/-! Helper lemmas about processing one symbol. -/

theorem processSymbol_complete (resp : Nat → Payload) (sym : String) (s e : Nat) (c : Cache)
    (h : hasCompleteRange c sym s e = true) :
    processSymbol resp sym s e c = ⟨c, 0, Except.ok (readRange c sym s e)⟩ := by
  simp [processSymbol, h]

theorem processSymbol_apiError (resp : Nat → Payload) (sym : String) (s e : Nat) (c : Cache)
    (hc : hasCompleteRange c sym s e = false)
    (h : hasErrSignal (runRetry resp).data = true) :
    processSymbol resp sym s e c =
      ⟨c, (runRetry resp).attempts, Except.error (FailReason.apiError (runRetry resp).data)⟩ := by
  simp [processSymbol, hc, h]

/-! Helper lemmas about the cache upsert. -/

/-- A row whose primary key already occurs in `rows`. -/
def keyMem (x : Row) (rows : List Row) : Bool := rows.any (fun y => sameKey x y)

/-- The rows of a batch that survive the batch's own later key conflicts:
for each primary key, the last row of the batch carrying it, in order of
last occurrence. -/
def lastWins : List Row → List Row
  | [] => []
  | r :: t => (if keyMem r t then [] else [r]) ++ lastWins t

theorem keyMem_congr (x y : Row) (l : List Row) (h : rkey x = rkey y) :
    keyMem x l = keyMem y l := by
  unfold keyMem
  congr 1
  funext z
  simp [sameKey, h]

theorem keyMem_cons (x r : Row) (t : List Row) :
    keyMem x (r :: t) = (sameKey x r || keyMem x t) := by
  simp [keyMem]

theorem upsert_cons (c : Cache) (r : Row) (t : List Row) :
    upsert c (r :: t) = upsert (upsertRow c r) t := rfl

theorem upsert_characterization :
    ∀ (rows : List Row) (c : Cache),
      upsert c rows = c.filter (fun x => ! keyMem x rows) ++ lastWins rows := by
  intro rows
  induction rows with
  | nil =>
    intro c
    simp [upsert, lastWins, keyMem]
  | cons r t ih =>
    intro c
    rw [upsert_cons, ih (upsertRow c r)]
    unfold upsertRow
    rw [List.filter_append, List.filter_filter]
    have hfc : c.filter (fun x => (! keyMem x t) && (! sameKey x r)) =
        c.filter (fun x => ! keyMem x (r :: t)) := by
      apply List.filter_congr
      intro x _
      rw [keyMem_cons]
      rw [Bool.not_or, Bool.and_comm]
    have hsing : List.filter (fun x => ! keyMem x t) [r] =
        if keyMem r t then [] else [r] := by
      by_cases h : keyMem r t
      · simp [List.filter, h]
      · simp [List.filter, h]
    rw [hfc, hsing]
    show _ = List.filter (fun x => ! keyMem x (r :: t)) c ++
      ((if keyMem r t then [] else [r]) ++ lastWins t)
    rw [List.append_assoc]

theorem mem_lastWins_keyMem :
    ∀ (rows : List Row) (x : Row), x ∈ lastWins rows → keyMem x rows = true := by
  intro rows
  induction rows with
  | nil => intro x hx; simp [lastWins] at hx
  | cons r t ih =>
    intro x hx
    unfold lastWins at hx
    rw [List.mem_append] at hx
    rw [keyMem_cons]
    rcases hx with hx | hx
    · by_cases h : keyMem r t
      · simp [h] at hx
      · simp [h] at hx
        subst hx
        simp [sameKey]
    · rw [ih x hx]
      simp

theorem lastWins_filter_nil (rows : List Row) :
    (lastWins rows).filter (fun x => ! keyMem x rows) = [] := by
  rw [List.filter_eq_nil_iff]
  intro a ha
  simp [mem_lastWins_keyMem rows a ha]

theorem upsert_twice (c : Cache) (rows : List Row) :
    upsert (upsert c rows) rows = upsert c rows := by
  rw [upsert_characterization rows c,
    upsert_characterization rows (c.filter (fun x => ! keyMem x rows) ++ lastWins rows)]
  rw [List.filter_append, lastWins_filter_nil, List.append_nil, List.filter_filter]
  have : c.filter (fun x => (! keyMem x rows) && (! keyMem x rows)) =
      c.filter (fun x => ! keyMem x rows) := by
    apply List.filter_congr
    intro x _
    rw [Bool.and_self]
  rw [this]

/-- The `(symbol, date)` primary keys of the table are pairwise distinct. -/
def keysNodup (c : Cache) : Prop := (c.map rkey).Nodup

theorem lastWins_keys_nodup : ∀ rows : List Row, ((lastWins rows).map rkey).Nodup := by
  intro rows
  induction rows with
  | nil => simp [lastWins]
  | cons r t ih =>
    unfold lastWins
    by_cases h : keyMem r t
    · simpa [h] using ih
    · rw [if_neg h, List.singleton_append, List.map_cons, List.nodup_cons]
      refine ⟨?_, ih⟩
      intro hmem
      rw [List.mem_map] at hmem
      obtain ⟨y, hy, hyk⟩ := hmem
      have hky : keyMem y t = true := mem_lastWins_keyMem t y hy
      rw [keyMem_congr y r t hyk] at hky
      exact h hky

theorem upsert_keys_nodup (c : Cache) (rows : List Row) (h : keysNodup c) :
    keysNodup (upsert c rows) := by
  rw [keysNodup, upsert_characterization rows c]
  rw [List.map_append, List.nodup_append]
  refine ⟨h.sublist ((List.filter_sublist c).map rkey), lastWins_keys_nodup rows, ?_⟩
  intro k hk1 hk2
  rw [List.mem_map] at hk1 hk2
  obtain ⟨x, hx, hxk⟩ := hk1
  obtain ⟨y, hy, hyk⟩ := hk2
  rw [List.mem_filter] at hx
  have hkx : keyMem x rows = false := by
    have := hx.2
    simpa using this
  have hky : keyMem y rows = true := mem_lastWins_keyMem rows y hy
  have hxy : rkey x = rkey y := by rw [hxk, hyk]
  rw [keyMem_congr x y rows hxy, hky] at hkx
  cases hkx

/-! Helper lemmas about the symbol loop. -/

theorem fetchGo_outcomes_fst (net : ApiRequest → Nat → Payload) (s e : Nat) :
    ∀ (syms : List String) (c : Cache),
      ((fetchGo net s e syms c).outcomes).map Prod.fst = syms := by
  intro syms
  induction syms with
  | nil => intro c; simp [fetchGo]
  | cons sym rest ih => intro c; simp [fetchGo, ih]

theorem successesOf_nil_iff (outs : List (String × Except FailReason (List Row))) :
    successesOf outs = [] ↔ ∀ p ∈ outs, ∀ rows, p.2 ≠ Except.ok rows := by
  unfold successesOf
  rw [List.filterMap_eq_nil_iff]
  constructor
  · intro h p hp rows hne
    have := h p hp
    rw [hne] at this
    simp at this
  · intro h p hp
    cases hres : p.2 with
    | ok rows => exact absurd hres (h p hp rows)
    | error _ => simp [hres]

/-! Concrete material used by the witnesses and counterexamples. -/

/-- A sample cached row for symbol `"A"` on day `d`, stored in the bare
`'%Y-%m-%d'` format. -/
def wrow (d : Nat) : Row := ⟨"A", ⟨d, false⟩, some ⟨1, 0⟩, none, none, none, none, none⟩

/-- A well-formed equities time series covering days 1 and 2. -/
def bugSeries : List (Nat × List (String × String)) :=
  [(1, [("1. open", "1.0")]), (2, [("1. open", "2.0")])]

/-- An error-free payload carrying `bugSeries` under a time-series key. -/
def bugPayload : Payload := ⟨none, none, [("Time Series (Daily)", bugSeries)]⟩

/-- A network oracle answering every request with `bugPayload`. -/
def bugNet : ApiRequest → Nat → Payload := fun _ _ => bugPayload

/-- A rate-limit payload whose note mentions the premium tier. -/
def premiumPayload : Payload := ⟨some "premium plan needed for realtime data", none, []⟩

/-- A hard-error payload whose message nevertheless mentions the premium tier. -/
def hardPremiumPayload : Payload := ⟨none, some "This is a premium endpoint", []⟩

/-- A hard-error payload with no mention of the premium tier. -/
def hardPayload : Payload := ⟨none, some "Invalid API call. Please retry later.", []⟩

/-- A rate-limit note with no mention of the premium tier. -/
def plainNotePayload : Payload := ⟨some "standard API rate limit is 25 requests per day", none, []⟩

/-- An error-free payload with no time-series entry. -/
def metaOnlyPayload : Payload := ⟨none, none, [("Meta Data", [])]⟩

/-! The claims. -/

/-- C1 (code bug, evaluated at the failing input): symbol `"A"`, range
`[1, 2]`, empty cache, network returning a valid series for days 1 and 2.
The first call fetches (1 network call), succeeds, and caches one row for
every calendar day of the range — but the rows are stored with the sqlite3
datetime-adapter suffix `' 00:00:00'`, while the completeness check tests
membership of the bare `'%Y-%m-%d'` strings, which never match. So the
cache never reports the range complete and the identical second call
performs network attempts again, contradicting the claimed (and the code's
own commented) cache-first behavior of serving the second call with zero
network calls. -/
theorem cache_first_code_bug :
    (fetchGo bugNet 1 2 ["A"] []).netCalls = 1
    ∧ (successesOf (fetchGo bugNet 1 2 ["A"] []).outcomes).map Prod.fst = ["A"]
    ∧ ((fetchGo bugNet 1 2 ["A"] []).cache).map (fun r => (r.symbol, r.date)) =
        [("A", ⟨1, true⟩), ("A", ⟨2, true⟩)]
    ∧ (dateRange 1 2).all (fun d =>
        ((fetchGo bugNet 1 2 ["A"] []).cache).any
          (fun r => decide (r.symbol = "A") && decide (r.date.day = d))) = true
    ∧ hasCompleteRange (fetchGo bugNet 1 2 ["A"] []).cache "A" 1 2 = false
    ∧ 1 ≤ (fetchGo bugNet 1 2 ["A"] (fetchGo bugNet 1 2 ["A"] []).cache).netCalls := by
  decide

/-- C2 counterexample: when every attempt returns a premium rate-limit
signal, the loop sleeps 60 seconds after every failed attempt, including the
third and last one, so it performs 3 sleeps — the claimed "exactly 2 sleeps
between the attempts" is false of the code. -/
theorem retry_bound_counterexample :
    (runRetry (fun _ => premiumPayload)).attempts = 3
    ∧ (runRetry (fun _ => premiumPayload)).sleeps = 3
    ∧ ¬ ((runRetry (fun _ => premiumPayload)).sleeps = 2) := by decide

/-- C2 (amended): for every symbol for which every fetch attempt returns a
payload containing a rate-limit note whose message text contains the
substring "premium" (case-insensitive), the Fetch Client makes exactly 3
HTTP attempts with exactly 3 sleeps of 60 seconds (one after each failed
attempt, so the last sleep follows the final attempt), then records a
transient failure for that symbol without touching the cache and moves on —
never more attempts. -/
theorem retry_bound_amended (resp : Nat → Payload)
    (h : ∀ i, i < 3 → premiumNoteSignal (resp i) = true) :
    runRetry resp = ⟨resp 2, 3, 3⟩
    ∧ ∀ (sym : String) (s e : Nat) (c : Cache),
        hasCompleteRange c sym s e = false →
        processSymbol resp sym s e c = ⟨c, 3, Except.error (FailReason.apiError (resp 2))⟩ := by
  have sig : ∀ i, i < 3 → hasErrSignal (resp i) = true ∧ premiumIn (errMsg (resp i)) = true := by
    intro i hi
    have hh := h i hi
    unfold premiumNoteSignal at hh
    cases hnote : (resp i).note with
    | none => rw [hnote] at hh; cases hh
    | some m =>
      rw [hnote] at hh
      refine ⟨by simp [hasErrSignal, hnote], ?_⟩
      simpa [errMsg, hnote] using hh
  have hr := runRetry_allPremium resp
    (sig 0 (by omega)).1 (sig 0 (by omega)).2
    (sig 1 (by omega)).1 (sig 1 (by omega)).2
    (sig 2 (by omega)).1 (sig 2 (by omega)).2
  refine ⟨hr, ?_⟩
  intro sym s e c hc
  have hs := processSymbol_apiError resp sym s e c hc (by rw [hr]; exact (sig 2 (by omega)).1)
  rw [hr] at hs
  exact hs

/-- Witness for C2 (amended) at a constant premium-note oracle and the empty
(hence incomplete) cache. -/
theorem retry_bound_amended_witness :
    runRetry (fun _ => premiumPayload) = ⟨premiumPayload, 3, 3⟩
    ∧ processSymbol (fun _ => premiumPayload) "A" 1 2 [] =
        ⟨[], 3, Except.error (FailReason.apiError premiumPayload)⟩ := by
  have hp : ∀ i, i < 3 → premiumNoteSignal ((fun _ : Nat => premiumPayload) i) = true := by
    intro i _
    show premiumNoteSignal premiumPayload = true
    decide
  exact ⟨(retry_bound_amended (fun _ => premiumPayload) hp).1,
    (retry_bound_amended (fun _ => premiumPayload) hp).2 "A" 1 2 [] (by decide)⟩

/-- C3 counterexample: a payload whose only error entry is a hard
`"Error Message"` is retried with sleeps whenever its text contains
"premium" — with a constant such payload the client makes 3 attempts and 3
sleeps, not the single claimed attempt, so "aborts immediately regardless of
the error message's text" is false of the code. -/
theorem hard_error_counterexample :
    (runRetry (fun _ => hardPremiumPayload)).attempts = 3
    ∧ (runRetry (fun _ => hardPremiumPayload)).sleeps = 3
    ∧ ¬ ((runRetry (fun _ => hardPremiumPayload)).attempts = 1) := by decide

/-- C3 (amended): for every fetch attempt whose decoded payload contains the
hard-error key `"Error Message"` (and no `"Note"` key) with a message text
that does not contain "premium" (case-insensitive), the Fetch Client aborts
the symbol immediately after that single attempt — no retry and no backoff
sleep — and records the failure for that symbol; an `"Error Message"` whose
text contains "premium" is instead treated like a rate limit (sleep and
retry). -/
theorem hard_error_amended (resp : Nat → Payload) (m : String)
    (hn : (resp 0).note = none) (he : (resp 0).errorMessage = some m)
    (hp : premiumIn m = false) :
    runRetry resp = ⟨resp 0, 1, 0⟩
    ∧ ∀ (sym : String) (s e : Nat) (c : Cache),
        hasCompleteRange c sym s e = false →
        processSymbol resp sym s e c = ⟨c, 1, Except.error (FailReason.apiError (resp 0))⟩ := by
  have hsig : hasErrSignal (resp 0) = true := by simp [hasErrSignal, he]
  have hmsg : errMsg (resp 0) = m := by simp [errMsg, hn, he]
  have hr := runRetry_nonpremium resp hsig (by rw [hmsg]; exact hp)
  refine ⟨hr, ?_⟩
  intro sym s e c hc
  have hs := processSymbol_apiError resp sym s e c hc (by rw [hr]; exact hsig)
  rw [hr] at hs
  exact hs

/-- Witness for C3 (amended) at a constant non-premium hard-error oracle and
the empty (hence incomplete) cache. -/
theorem hard_error_amended_witness :
    runRetry (fun _ => hardPayload) = ⟨hardPayload, 1, 0⟩
    ∧ processSymbol (fun _ => hardPayload) "A" 1 2 [] =
        ⟨[], 1, Except.error (FailReason.apiError hardPayload)⟩ :=
  ⟨(hard_error_amended (fun _ => hardPayload) "Invalid API call. Please retry later."
      rfl rfl (by decide)).1,
   (hard_error_amended (fun _ => hardPayload) "Invalid API call. Please retry later."
      rfl rfl (by decide)).2 "A" 1 2 [] (by decide)⟩

/-- C4: Failure isolation. `fetch_stock_data` is a total function (every
per-symbol failure path — hard API error, exhausted retries, missing
time-series key, numeric-coercion error — is an explicit recorded outcome,
matching the per-symbol `except` block that catches every exception and
`continue`s), and the recorded per-symbol outcomes cover exactly the
requested symbols in order: no symbol's failure aborts processing of the
later symbols or the whole call. -/
theorem failure_isolation (net : ApiRequest → Nat → Payload) (symbols : List String)
    (s e : Nat) (c : Cache) :
    ((fetchStockData net symbols s e c).1.outcomes).map Prod.fst = symbols := by
  show ((fetchGo net s e symbols c).outcomes).map Prod.fst = symbols
  exact fetchGo_outcomes_fst net s e symbols c

/-- C5: NoDataAvailable contract. The overall result of `fetch_stock_data`
is the hard failure `none` exactly when no requested symbol produced a
success, and the empty symbol list yields the hard failure, not an empty
success. -/
theorem no_data_available (net : ApiRequest → Nat → Payload) (symbols : List String)
    (s e : Nat) (c : Cache) :
    ((fetchStockData net symbols s e c).2 = none ↔
      ∀ p ∈ (fetchStockData net symbols s e c).1.outcomes,
        ∀ rows, p.2 ≠ Except.ok rows)
    ∧ (fetchStockData net [] s e c).2 = none := by
  refine ⟨?_, rfl⟩
  show ((if (successesOf (fetchGo net s e symbols c).outcomes).isEmpty then none
      else some (successesOf (fetchGo net s e symbols c).outcomes)) = none ↔ _)
  cases hb : (successesOf (fetchGo net s e symbols c).outcomes).isEmpty with
  | true =>
    have hnil : successesOf (fetchGo net s e symbols c).outcomes = [] :=
      List.isEmpty_iff.mp hb
    simp only [if_true]
    constructor
    · intro _
      exact (successesOf_nil_iff _).mp hnil
    · intro _
      trivial
  | false =>
    have hnil : ¬ successesOf (fetchGo net s e symbols c).outcomes = [] := by
      intro hh
      rw [hh] at hb
      cases hb
    simp only [Bool.false_eq_true, if_false]
    constructor
    · intro hh
      cases hh
    · intro hall
      exact absurd ((successesOf_nil_iff _).mpr hall) hnil

/-- C6: Upsert idempotence. Performing the batch `INSERT OR REPLACE` of the
same row sequence twice leaves the table in the same observable state
(content and scan order) as performing it once, and the upsert preserves
uniqueness of the `(symbol, date)` primary keys — a re-sent row replaces the
stored row with its key and is never appended as a duplicate. -/
theorem upsert_idempotent :
    (∀ (c : Cache) (rows : List Row), upsert (upsert c rows) rows = upsert c rows)
    ∧ (∀ (c : Cache) (rows : List Row), keysNodup c → keysNodup (upsert c rows)) :=
  ⟨upsert_twice, upsert_keys_nodup⟩

/-- Witness for C6 at a concrete table and batch. -/
theorem upsert_idempotent_witness :
    upsert (upsert [] [wrow 1, wrow 2]) [wrow 1, wrow 2] = upsert [] [wrow 1, wrow 2]
    ∧ keysNodup (upsert [] [wrow 1, wrow 2]) :=
  ⟨upsert_idempotent.1 [] [wrow 1, wrow 2],
   upsert_idempotent.2 [] [wrow 1, wrow 2] (by simp [keysNodup])⟩

/-- The memcmp order of stored date texts is transitive. -/
theorem dkLe_trans (a b c : DateKey) (hab : dkLe a b = true) (hbc : dkLe b c = true) :
    dkLe a c = true := by
  unfold dkLe at *
  rcases a with ⟨da, ta⟩
  rcases b with ⟨db, tb⟩
  rcases c with ⟨dc, tc⟩
  simp only [Bool.or_eq_true, Bool.and_eq_true, decide_eq_true_eq] at *
  rcases hab with hab | ⟨hab, hab2⟩ <;> rcases hbc with hbc | ⟨hbc, hbc2⟩
  · exact Or.inl (by omega)
  · exact Or.inl (by omega)
  · exact Or.inl (by omega)
  · refine Or.inr ⟨by omega, ?_⟩
    cases ta <;> cases tb <;> cases tc <;> simp_all

/-- The memcmp order of stored date texts is total. -/
theorem dkLe_total (a b : DateKey) : dkLe a b = true ∨ dkLe b a = true := by
  unfold dkLe
  rcases a with ⟨da, ta⟩
  rcases b with ⟨db, tb⟩
  simp only [Bool.or_eq_true, Bool.and_eq_true, decide_eq_true_eq]
  rcases Nat.lt_trichotomy da db with h | h | h
  · exact Or.inl (Or.inl h)
  · cases ta <;> cases tb <;> simp [h]
  · exact Or.inr (Or.inl h)

instance : IsTrans Row (fun a b : Row => dkLe a.date b.date = true) :=
  ⟨fun a b c => dkLe_trans a.date b.date c.date⟩

instance : IsTotal Row (fun a b : Row => dkLe a.date b.date = true) :=
  ⟨fun a b => dkLe_total a.date b.date⟩

/-- The memcmp order of stored date texts never decreases the day. -/
theorem dkLe_day_le (a b : DateKey) (h : dkLe a b = true) : a.day ≤ b.day := by
  unfold dkLe at h
  simp only [Bool.or_eq_true, Bool.and_eq_true, decide_eq_true_eq] at h
  rcases h with h | ⟨h, _⟩ <;> omega

/-- On a bare-format stored date (no `' 00:00:00'` suffix) the query's
bound tests coincide with calendar containment in `[s, e]`. -/
theorem bare_bounds_iff (k : DateKey) (s e : Nat) (hb : k.hasTime = false) :
    (geStart k s = true ∧ leEnd k e = true) ↔ (s ≤ k.day ∧ k.day ≤ e) := by
  unfold geStart leEnd
  rw [hb]
  simp only [Bool.or_eq_true, Bool.and_eq_true, decide_eq_true_eq, Bool.not_false]
  constructor
  · rintro ⟨h1, h2 | ⟨h2, _⟩⟩ <;> omega
  · rintro ⟨h1, h2⟩
    refine ⟨h1, ?_⟩
    rcases Nat.lt_or_ge k.day e with h | h
    · exact Or.inl h
    · exact Or.inr ⟨by omega, trivial⟩

/-- C7: readRange ordering. For every symbol and range the cache read
returns exactly the stored rows for that symbol that the query's date
bounds admit — which, for rows stored in the bare `'%Y-%m-%d'` format, is
precisely the rows whose date lies within `[s, e]` — and the `(symbol,
date)` primary-key index serves them ordered by date ascending. -/
theorem read_range_ordering (c : Cache) (sym : String) (s e : Nat) :
    (∀ r : Row, r ∈ readRange c sym s e ↔
      (r ∈ c ∧ r.symbol = sym ∧ geStart r.date s = true ∧ leEnd r.date e = true))
    ∧ (∀ r : Row, r.date.hasTime = false →
      ((geStart r.date s = true ∧ leEnd r.date e = true) ↔ (s ≤ r.date.day ∧ r.date.day ≤ e)))
    ∧ List.Sorted (fun a b : Row => a.date.day ≤ b.date.day) (readRange c sym s e) := by
  refine ⟨?_, fun r hb => bare_bounds_iff r.date s e hb, ?_⟩
  · intro r
    unfold readRange
    rw [List.mem_insertionSort, List.mem_filter]
    simp [and_assoc]
  · have hs := List.sorted_insertionSort (fun a b : Row => dkLe a.date b.date = true)
      (c.filter (fun r => decide (r.symbol = sym) && (geStart r.date s && leEnd r.date e)))
    exact hs.imp (fun h => dkLe_day_le _ _ h)

/-- Witness for C7 at a concrete store (inserted out of date order) and
range, with the bare-format hypothesis discharged on a stored row. -/
theorem read_range_ordering_witness :
    (wrow 1 ∈ readRange [wrow 2, wrow 1] "A" 1 2 ↔
      (wrow 1 ∈ [wrow 2, wrow 1] ∧ (wrow 1).symbol = "A"
        ∧ geStart (wrow 1).date 1 = true ∧ leEnd (wrow 1).date 2 = true))
    ∧ ((geStart (wrow 1).date 1 = true ∧ leEnd (wrow 1).date 2 = true) ↔
      (1 ≤ (wrow 1).date.day ∧ (wrow 1).date.day ≤ 2))
    ∧ List.Sorted (fun a b : Row => a.date.day ≤ b.date.day)
        (readRange [wrow 2, wrow 1] "A" 1 2) :=
  ⟨(read_range_ordering [wrow 2, wrow 1] "A" 1 2).1 (wrow 1),
   (read_range_ordering [wrow 2, wrow 1] "A" 1 2).2.1 (wrow 1) (by decide),
   (read_range_ordering [wrow 2, wrow 1] "A" 1 2).2.2⟩

/-- Remove one trailing occurrence of `suf` from `s`, if present
(kernel-evaluable suffix stripping over character lists). -/
def trimSuffix (s suf : String) : String :=
  if leadsWith suf.data.reverse s.data.reverse then
    ⟨(s.data.reverse.drop suf.data.length).reverse⟩
  else s

/-- Modelled from the claim's wording, for comparison with the code: the
symbol with the "-USD" suffix stripped, if present. -/
def specUSDSuffixStripped (s : String) : String := trimSuffix s "-USD"

/-- C8 counterexample: the code sends `symbol.replace("-USD", "")`, which
removes every occurrence of "-USD", not just a trailing suffix. The symbol
"A-USDB" contains "USD", so it is classified as crypto, but the base symbol
sent is "AB", while the claimed suffix-stripping leaves "A-USDB" unchanged
(it has no "-USD" suffix). -/
theorem classifier_counterexample :
    strHas "A-USDB" "USD" = true
    ∧ (classify "A-USDB").func = "DIGITAL_CURRENCY_DAILY"
    ∧ (classify "A-USDB").symbol = "AB"
    ∧ specUSDSuffixStripped "A-USDB" = "A-USDB"
    ∧ ¬ ((classify "A-USDB").symbol = specUSDSuffixStripped "A-USDB") := by decide

/-- C8 (amended): classification is deterministic and follows exactly this
case split: a symbol containing the substring "USD" is classified as crypto,
requesting DIGITAL_CURRENCY_DAILY with market=USD and base symbol equal to
the symbol with every occurrence of "-USD" removed; otherwise a symbol
containing "EUR" is classified as forex, requesting FX_DAILY (the URL also
carries market=USD and the same "-USD" removal, vacuous for a symbol without
"USD"); all other symbols are classified as equities, requesting
TIME_SERIES_DAILY_ADJUSTED with outputsize=full (outputsize=full is sent for
equities only). -/
theorem classifier_amended (s : String) :
    (strHas s "USD" = true →
      classify s = ⟨"DIGITAL_CURRENCY_DAILY", replaceAll s "-USD" "", some "USD", none⟩)
    ∧ (strHas s "USD" = false → strHas s "EUR" = true →
      classify s = ⟨"FX_DAILY", replaceAll s "-USD" "", some "USD", none⟩)
    ∧ (strHas s "USD" = false → strHas s "EUR" = false →
      classify s = ⟨"TIME_SERIES_DAILY_ADJUSTED", s, none, some "full"⟩) := by
  refine ⟨fun h => ?_, fun h h2 => ?_, fun h h2 => ?_⟩
  · simp [classify, h]
  · simp [classify, h, h2]
  · simp [classify, h, h2]

/-- Witness for C8 (amended) on one symbol of each class. -/
theorem classifier_amended_witness :
    classify "BTC-USD" = ⟨"DIGITAL_CURRENCY_DAILY", "BTC", some "USD", none⟩
    ∧ classify "EURGBP" = ⟨"FX_DAILY", "EURGBP", some "USD", none⟩
    ∧ classify "AAPL" = ⟨"TIME_SERIES_DAILY_ADJUSTED", "AAPL", none, some "full"⟩ :=
  ⟨(classifier_amended "BTC-USD").1 (by decide),
   (classifier_amended "EURGBP").2.1 (by decide) (by decide),
   (classifier_amended "AAPL").2.2 (by decide) (by decide)⟩

/-- C9: Normalization atomicity. For an incomplete cache and an error-free
first response, if the payload has no top-level key containing "Time Series"
or "Digital Currency", or if numeric coercion fails somewhere in the chosen
series, the symbol's cycle records a failure and the cache is left exactly
as it was: zero rows for that symbol are inserted in that cycle. -/
theorem normalization_atomic (resp : Nat → Payload) (sym : String) (s e : Nat) (c : Cache)
    (hc : hasCompleteRange c sym s e = false)
    (hclean : hasErrSignal (resp 0) = false)
    (hfail : pickSeries (resp 0) = none
      ∨ ∃ kv, pickSeries (resp 0) = some kv ∧ normalizeSeries sym kv.2 = none) :
    (processSymbol resp sym s e c).cache = c
    ∧ ∃ err, (processSymbol resp sym s e c).result = Except.error err := by
  have hr := runRetry_clean resp hclean
  rcases hfail with hnone | ⟨kv, hkv, hns⟩
  · have hps : processSymbol resp sym s e c = ⟨c, 1, Except.error FailReason.noSeriesKey⟩ := by
      simp [processSymbol, hc, hr, hclean, hnone]
    rw [hps]
    exact ⟨rfl, FailReason.noSeriesKey, rfl⟩
  · have hps : processSymbol resp sym s e c = ⟨c, 1, Except.error FailReason.badNumeric⟩ := by
      simp [processSymbol, hc, hr, hclean, hkv, hns]
    rw [hps]
    exact ⟨rfl, FailReason.badNumeric, rfl⟩

/-- Witness for C9: a clean payload holding only a "Meta Data" entry, read
against the empty (hence incomplete) cache. -/
theorem normalization_atomic_witness :
    (processSymbol (fun _ => metaOnlyPayload) "A" 1 2 []).cache = []
    ∧ ∃ err, (processSymbol (fun _ => metaOnlyPayload) "A" 1 2 []).result =
        Except.error err :=
  normalization_atomic (fun _ => metaOnlyPayload) "A" 1 2 [] (by decide) (by decide)
    (Or.inl (by decide))

/-- C10: a payload carrying a rate-limit `"Note"` whose message does not
contain "premium" (case-insensitive) causes exactly one attempt and an
immediate abort of the symbol — no sleep, no retry — with the failure
recorded and the cache untouched, the same observable treatment as a hard
error. -/
theorem nonpremium_note_single_attempt (resp : Nat → Payload) (m : String)
    (hn : (resp 0).note = some m) (hp : premiumIn m = false) :
    runRetry resp = ⟨resp 0, 1, 0⟩
    ∧ ∀ (sym : String) (s e : Nat) (c : Cache),
        hasCompleteRange c sym s e = false →
        processSymbol resp sym s e c = ⟨c, 1, Except.error (FailReason.apiError (resp 0))⟩ := by
  have hsig : hasErrSignal (resp 0) = true := by simp [hasErrSignal, hn]
  have hmsg : errMsg (resp 0) = m := by simp [errMsg, hn]
  have hr := runRetry_nonpremium resp hsig (by rw [hmsg]; exact hp)
  refine ⟨hr, ?_⟩
  intro sym s e c hc
  have hs := processSymbol_apiError resp sym s e c hc (by rw [hr]; exact hsig)
  rw [hr] at hs
  exact hs

/-- Witness for C10 at a constant non-premium note oracle and the empty
(hence incomplete) cache. -/
theorem nonpremium_note_single_attempt_witness :
    runRetry (fun _ => plainNotePayload) = ⟨plainNotePayload, 1, 0⟩
    ∧ processSymbol (fun _ => plainNotePayload) "A" 1 2 [] =
        ⟨[], 1, Except.error (FailReason.apiError plainNotePayload)⟩ :=
  ⟨(nonpremium_note_single_attempt (fun _ => plainNotePayload)
      "standard API rate limit is 25 requests per day" rfl (by decide)).1,
   (nonpremium_note_single_attempt (fun _ => plainNotePayload)
      "standard API rate limit is 25 requests per day" rfl (by decide)).2
     "A" 1 2 [] (by decide)⟩

end StockDash
